import Mathlib

/-!
Verification of the terminal rendering core of `scripts/release.py`
(ChromaCat release banner): gradient generation, ANSI escape stripping,
diagonal gradient application, and width-aware centering.

Python semantics are embedded shallowly:
* Python `int` is `Int`; `//` (floor division) is `Int.fdiv`; `int(...)`
  truncation toward zero on a non-negative exact value is `Int.tdiv`.
* Failure (`ZeroDivisionError`) is an `Except PyErr` result.
* Python strings are `String` / `List Char`.
-/

/-- The runtime failure the rendering core can actually raise
(`steps // segments` or `% len(gradient)` with a zero divisor). -/
inductive PyErr where
  | zeroDivision
deriving DecidableEq

/-- Escape introducer byte 0x1B of the stripping regex in `strip_ansi`. -/
def isIntroducer (c : Char) : Bool := c.toNat = 0x1B

/-- Second byte of the regex: the range 0x40 to 0x5F (written at-to-underscore). -/
def isFe (c : Char) : Bool := 0x40 ≤ c.toNat && c.toNat ≤ 0x5F

/-- Parameter bytes of the regex: the range 0x30 to 0x3F. -/
def isParamByte (c : Char) : Bool := 0x30 ≤ c.toNat && c.toNat ≤ 0x3F

/-- Intermediate bytes of the regex: the range 0x20 to 0x2F. -/
def isIntermediateByte (c : Char) : Bool := 0x20 ≤ c.toNat && c.toNat ≤ 0x2F

/-- Final byte of the regex: the range 0x40 to 0x7E. -/
def isFinalByte (c : Char) : Bool := 0x40 ≤ c.toNat && c.toNat ≤ 0x7E

/-- Attempt to match the regex of `strip_ansi` (introducer 0x1B, one byte in
0x40 to 0x5F, then a greedy run of parameter bytes, a greedy run of
intermediate bytes, and one final byte) at the head of the list, returning the
remainder after the match.  Because the three trailing character classes are
pairwise disjoint, the regex engine's greedy matching is exactly maximal
munch, which is what this function implements. -/
def matchAnsi : List Char → Option (List Char)
  | c :: d :: rest =>
    if isIntroducer c && isFe d then
      match (rest.dropWhile isParamByte).dropWhile isIntermediateByte with
      | e :: rest3 => if isFinalByte e then some rest3 else none
      | [] => none
    else none
  | _ => none

/-- Fuelled scan implementing `re.sub(pattern, "", text)`: at each position,
delete the leftmost non-overlapping match, otherwise keep the character.
Fuel `≥ length` always suffices since a match consumes at least one char. -/
def stripAuxF : Nat → List Char → List Char
  | _, [] => []
  | 0, l => l
  | fuel + 1, c :: rest =>
    match matchAnsi (c :: rest) with
    | some rem => stripAuxF fuel rem
    | none => c :: stripAuxF fuel rest

/-- `re.sub` of the ANSI pattern with the empty string, on character lists. -/
def stripChars (l : List Char) : List Char := stripAuxF l.length l

/-- `strip_ansi` from the source: remove ANSI color codes from a string. -/
def strip_ansi (text : String) : String := ⟨stripChars text.data⟩

/-- Decimal digits of a natural number, most significant digit first, by
repeated division; fuel at least `n` makes the recursion structural. -/
def natDigitsCore : Nat → Nat → List Char
  | 0, _ => []
  | _ + 1, 0 => []
  | fuel + 1, n + 1 =>
    natDigitsCore fuel ((n + 1) / 10) ++ [Char.ofNat (48 + (n + 1) % 10)]

/-- Decimal representation of a natural number, as Python formats it. -/
def natDigits (n : Nat) : List Char :=
  if n = 0 then ['0'] else natDigitsCore n n

/-- Decimal representation of a Python int inside an f-string. -/
def intRepr (i : Int) : List Char :=
  if i < 0 then '-' :: natDigits i.natAbs else natDigits i.toNat

/-- The f-string of the source building one 24-bit foreground color escape
code from three channel values. -/
def colorCode (r g b : Int) : String :=
  ⟨'\x1B' :: '[' ::
    ("38;2;".data ++ intRepr r ++ ';' :: intRepr g ++ ';' :: intRepr b ++ ['m'])⟩

/-- The parameter-byte run of a color escape code: everything of
`colorCode r g b` strictly between the two leading bytes and the final
letter m. -/
def codeParams (r g b : Int) : List Char :=
  "38;2;".data ++ intRepr r ++ ';' :: intRepr g ++ ';' :: intRepr b

/-- One interpolated channel of `generate_gradient`.  The Python float
computation `int(start * (1 - t) + end * t)` with `t = j / sps` is modelled
exactly as truncation toward zero of the rational
`(start * (sps - j) + end * j) / sps`, which has integer numerator and
positive denominator. -/
def lerpChannel (a b : Int) (j sps : Nat) : Int :=
  Int.tdiv (a * ((sps : Int) - (j : Int)) + b * (j : Int)) (sps : Int)

/-- `generate_gradient` from the source.  `segments = len(colors) - 1`:
Python raises `ZeroDivisionError` from `steps // segments` when
`segments = 0` (exactly one key color); with no key colors `segments = -1`,
so `steps // -1` succeeds and the loop `range(-1)` is empty. -/
def generate_gradient (colors : List (Int × Int × Int)) (steps : Int) :
    Except PyErr (List String) :=
  let segments : Int := (colors.length : Int) - 1
  if segments = 0 then Except.error PyErr.zeroDivision
  else
    let sps : Int := max 1 (Int.fdiv steps segments)
    Except.ok <| (List.range segments.toNat).flatMap fun i =>
      (List.range sps.toNat).map fun j =>
        colorCode
          (lerpChannel (colors.getD i (0, 0, 0)).1
            (colors.getD (i + 1) (0, 0, 0)).1 j sps.toNat)
          (lerpChannel (colors.getD i (0, 0, 0)).2.1
            (colors.getD (i + 1) (0, 0, 0)).2.1 j sps.toNat)
          (lerpChannel (colors.getD i (0, 0, 0)).2.2
            (colors.getD (i + 1) (0, 0, 0)).2.2 j sps.toNat)

/-- The cyclic gradient lookup `gradient[(i + line_number) % len(gradient)]`
for a non-zero length; the default is never read at a valid index. -/
def gradColor (gradient : List String) (k : Nat) : String :=
  gradient.getD (k % gradient.length) ""

/-- The indexing expression of `apply_gradient`: Python raises
`ZeroDivisionError` on `% len(gradient)` when the gradient is empty. -/
def colorAt (gradient : List String) (k : Nat) : Except PyErr String :=
  if gradient.length = 0 then Except.error PyErr.zeroDivision
  else Except.ok (gradColor gradient k)

/-- The generator of `apply_gradient`: at offset `k`, emit the color code for
the running index followed by the character, then continue at `k + 1`. -/
def applyGradAux (gradient : List String) : Nat → List Char → Except PyErr String
  | _, [] => Except.ok ""
  | k, c :: cs =>
    match colorAt gradient k with
    | Except.error e => Except.error e
    | Except.ok code =>
      match applyGradAux gradient (k + 1) cs with
      | Except.error e => Except.error e
      | Except.ok rest => Except.ok (code ++ String.singleton c ++ rest)

/-- `apply_gradient` from the source: color each character of `text`
diagonally, starting the running index at `line_number`. -/
def apply_gradient (text : String) (gradient : List String) (line_number : Nat) :
    Except PyErr String :=
  applyGradAux gradient line_number text.data

/-- Modelled from the spec: the zero-width code points (combining marks,
zero-width spaces and joiners) of the external `wcwidth` library, which is
not part of this repository. -/
def isZeroWidth (c : Char) : Bool :=
  (0x0300 ≤ c.toNat && c.toNat ≤ 0x036F) ||
  (0x200B ≤ c.toNat && c.toNat ≤ 0x200F) ||
  c.toNat = 0xFEFF

/-- Modelled from the spec: the double-width code points (CJK, fullwidth
forms, symbol and emoji ranges) of the external `wcwidth` library, which is
not part of this repository. -/
def isWideChar (c : Char) : Bool :=
  (0x1100 ≤ c.toNat && c.toNat ≤ 0x115F) ||
  (0x2E80 ≤ c.toNat && c.toNat ≤ 0x303E) ||
  (0x3041 ≤ c.toNat && c.toNat ≤ 0x33FF) ||
  (0x3400 ≤ c.toNat && c.toNat ≤ 0x4DBF) ||
  (0x4E00 ≤ c.toNat && c.toNat ≤ 0x9FFF) ||
  (0xA000 ≤ c.toNat && c.toNat ≤ 0xA4CF) ||
  (0xAC00 ≤ c.toNat && c.toNat ≤ 0xD7A3) ||
  (0xF900 ≤ c.toNat && c.toNat ≤ 0xFAFF) ||
  (0xFE30 ≤ c.toNat && c.toNat ≤ 0xFE4F) ||
  (0xFF00 ≤ c.toNat && c.toNat ≤ 0xFF60) ||
  (0xFFE0 ≤ c.toNat && c.toNat ≤ 0xFFE6) ||
  (0x1F300 ≤ c.toNat && c.toNat ≤ 0x1F64F) ||
  (0x1F900 ≤ c.toNat && c.toNat ≤ 0x1F9FF) ||
  (0x20000 ≤ c.toNat && c.toNat ≤ 0x2FFFD) ||
  (0x30000 ≤ c.toNat && c.toNat ≤ 0x3FFFD)

/-- Modelled from the spec: the terminal display width of one code point as
assigned by the external `wcwidth` library: 0 for zero-width or combining
marks, 2 for wide ranges, and the fallback 1 for everything else, including
malformed or unrecognized code points. -/
def charWidth (c : Char) : Nat :=
  if isZeroWidth c then 0 else if isWideChar c then 2 else 1

/-- Modelled from the spec: `wcswidth(strip_ansi(text))`, the visible-width
measurement used by `center_text` (the external `wcswidth` is the sum of the
per-code-point widths of the stripped text). -/
def visibleWidth (text : String) : Nat :=
  ((stripChars text.data).map charWidth).sum

/-- Python space repetition `' ' * n`; negative counts (clamped by
`Int.toNat` at call sites) produce the empty string. -/
def mkSpaces (n : Nat) : String := ⟨List.replicate n ' '⟩

/-- `center_text` from the source; Python floor division is `Int.fdiv`, and
repetition by a negative count yields no characters. -/
def center_text (text : String) (width : Int) : String :=
  let v : Int := (visibleWidth text : Int)
  let padding : Int := max (Int.fdiv (width - v) 2) 0
  mkSpaces padding.toNat ++ text ++ mkSpaces (width - padding - v).toNat

theorem matchAnsi_nil : matchAnsi [] = none := rfl

theorem matchAnsi_single (c : Char) : matchAnsi [c] = none := rfl

theorem matchAnsi_cons_none {c : Char} (rest : List Char)
    (h : isIntroducer c = false) : matchAnsi (c :: rest) = none := by
  cases rest with
  | nil => rfl
  | cons d r => simp [matchAnsi, h]

theorem dropWhile_length_le (p : Char → Bool) :
    ∀ l : List Char, (l.dropWhile p).length ≤ l.length := by
  intro l
  induction l with
  | nil => simp
  | cons c rest ih =>
    rw [List.dropWhile_cons]
    split
    · exact le_trans ih (Nat.le_succ _)
    · simp

theorem matchAnsi_some_length {l rem : List Char} (h : matchAnsi l = some rem) :
    rem.length < l.length := by
  match l with
  | [] => simp [matchAnsi] at h
  | [c] => simp [matchAnsi] at h
  | c :: d :: rest =>
    have hlen : ((rest.dropWhile isParamByte).dropWhile isIntermediateByte).length ≤
        rest.length :=
      le_trans (dropWhile_length_le _ _) (dropWhile_length_le _ _)
    simp only [matchAnsi] at h
    split at h
    · cases hd : (rest.dropWhile isParamByte).dropWhile isIntermediateByte with
      | nil => rw [hd] at h; cases h
      | cons e rest3 =>
        rw [hd] at h
        cases hf : isFinalByte e with
        | false => simp [hf] at h
        | true =>
          simp only [hf, if_true, eq_self_iff_true, Option.some.injEq] at h
          subst h
          rw [hd] at hlen
          simp only [List.length_cons] at hlen ⊢
          omega
    · cases h

theorem stripAuxF_congr : ∀ (f1 f2 : Nat) (l : List Char),
    l.length ≤ f1 → l.length ≤ f2 → stripAuxF f1 l = stripAuxF f2 l := by
  intro f1
  induction f1 with
  | zero =>
    intro f2 l h1 _
    have : l = [] := by
      cases l with
      | nil => rfl
      | cons c r => simp at h1
    subst this
    cases f2 <;> rfl
  | succ f ih =>
    intro f2 l h1 h2
    cases l with
    | nil => cases f2 <;> rfl
    | cons c rest =>
      cases f2 with
      | zero => simp at h2
      | succ f2' =>
        simp only [stripAuxF]
        cases hm : matchAnsi (c :: rest) with
        | some rem =>
          have hlen := matchAnsi_some_length hm
          simp only [List.length_cons] at h1 h2 hlen
          exact ih f2' rem (by omega) (by omega)
        | none =>
          simp only [List.length_cons] at h1 h2
          exact congrArg (c :: ·) (ih f2' rest (by omega) (by omega))

theorem stripChars_nil : stripChars [] = [] := rfl

theorem stripChars_cons_match {c : Char} {rest rem : List Char}
    (h : matchAnsi (c :: rest) = some rem) :
    stripChars (c :: rest) = stripChars rem := by
  have hlen := matchAnsi_some_length h
  simp only [List.length_cons] at hlen
  simp only [stripChars, List.length_cons, stripAuxF, h]
  exact stripAuxF_congr _ _ rem (by omega) le_rfl

theorem stripChars_cons_nomatch {c : Char} {rest : List Char}
    (h : matchAnsi (c :: rest) = none) :
    stripChars (c :: rest) = c :: stripChars rest := by
  simp only [stripChars, List.length_cons, stripAuxF, h]

theorem stripChars_of_no_introducer : ∀ {l : List Char},
    (∀ c ∈ l, isIntroducer c = false) → stripChars l = l := by
  intro l
  induction l with
  | nil => intro _; rfl
  | cons c rest ih =>
    intro h
    have hc : isIntroducer c = false := h c (List.mem_cons_self c rest)
    rw [stripChars_cons_nomatch (matchAnsi_cons_none rest hc)]
    exact congrArg (c :: ·) (ih fun x hx => h x (List.mem_cons_of_mem c hx))

example : strip_ansi "\x1B[38;2;1;2;3mA" = "A" := by decide

example : colorCode 127 0 5 = "\x1B[38;2;127;0;5m" := by decide

example : generate_gradient [] 5 = Except.ok [] := rfl

example : generate_gradient [(0, 0, 0)] 5 = Except.error PyErr.zeroDivision := rfl

example :
    generate_gradient [(0, 0, 0), (255, 255, 255)] 2 =
      Except.ok ["\x1B[38;2;0;0;0m", "\x1B[38;2;127;127;127m"] := rfl

example : apply_gradient "ab" ["X", "Y"] 1 = Except.ok "YaXb" := rfl

example : center_text "hi" 6 = "  hi  " := by decide

example : visibleWidth "hi" = 2 := by decide

theorem flatMap_const_length {α β : Type} (L : List α) (f : α → List β) (m : Nat)
    (h : ∀ a ∈ L, (f a).length = m) : (L.flatMap f).length = L.length * m := by
  induction L with
  | nil => simp
  | cons a L ih =>
    simp only [List.flatMap_cons, List.length_append, List.length_cons]
    rw [h a (List.mem_cons_self a L), ih fun x hx => h x (List.mem_cons_of_mem a hx)]
    ring

/-- C1: with at least two key colors, `generate_gradient` succeeds and the
result length is exactly `segments * stepsPerSegment`, where
`segments = len(colors) - 1` and `stepsPerSegment = max(1, steps // segments)`
with floor division; in particular the result is never empty, also when
`steps` does not divide evenly by the segment count. -/
theorem generate_gradient_length_spec (colors : List (Int × Int × Int)) (steps : Int)
    (h : 2 ≤ colors.length) :
    ∃ g, generate_gradient colors steps = Except.ok g ∧
      g.length = (colors.length - 1) *
        (max 1 (Int.fdiv steps ((colors.length : Int) - 1))).toNat ∧
      1 ≤ g.length := by
  have h2 : (2 : Int) ≤ (colors.length : Int) := by exact_mod_cast h
  have hseg : ((colors.length : Int) - 1) ≠ 0 := by omega
  have hlen : (generate_gradient colors steps) =
      Except.ok ((List.range ((colors.length : Int) - 1).toNat).flatMap fun i =>
        (List.range (max 1 (Int.fdiv steps ((colors.length : Int) - 1))).toNat).map fun j =>
          colorCode
            (lerpChannel (colors.getD i (0, 0, 0)).1 (colors.getD (i + 1) (0, 0, 0)).1 j
              (max 1 (Int.fdiv steps ((colors.length : Int) - 1))).toNat)
            (lerpChannel (colors.getD i (0, 0, 0)).2.1 (colors.getD (i + 1) (0, 0, 0)).2.1 j
              (max 1 (Int.fdiv steps ((colors.length : Int) - 1))).toNat)
            (lerpChannel (colors.getD i (0, 0, 0)).2.2 (colors.getD (i + 1) (0, 0, 0)).2.2 j
              (max 1 (Int.fdiv steps ((colors.length : Int) - 1))).toNat)) := by
    simp only [generate_gradient]
    rw [if_neg hseg]
  refine ⟨_, hlen, ?_, ?_⟩
  · rw [flatMap_const_length _ _ ((max 1 (Int.fdiv steps ((colors.length : Int) - 1))).toNat)
      (fun a _ => by simp)]
    rw [List.length_range]
    congr 1
    omega
  · rw [flatMap_const_length _ _ ((max 1 (Int.fdiv steps ((colors.length : Int) - 1))).toNat)
      (fun a _ => by simp)]
    rw [List.length_range]
    have hmax : 1 ≤ max 1 (Int.fdiv steps ((colors.length : Int) - 1)) := le_max_left _ _
    have h1 : 1 ≤ ((colors.length : Int) - 1).toNat := by omega
    have hmax' : 1 ≤ (max 1 (Int.fdiv steps ((colors.length : Int) - 1))).toNat := by omega
    calc 1 = 1 * 1 := rfl
    _ ≤ ((colors.length : Int) - 1).toNat *
        (max 1 (Int.fdiv steps ((colors.length : Int) - 1))).toNat :=
      Nat.mul_le_mul h1 hmax'

/-- Witness for C1 at two key colors and 10 steps: one segment of 10 steps. -/
theorem generate_gradient_length_spec_witness :
    2 ≤ ([((0 : Int), (0 : Int), (0 : Int)), (255, 255, 255)] : List (Int × Int × Int)).length ∧
    ∃ g, generate_gradient [((0 : Int), (0 : Int), (0 : Int)), (255, 255, 255)] 10 = Except.ok g ∧
      g.length = (([((0 : Int), (0 : Int), (0 : Int)), (255, 255, 255)] :
          List (Int × Int × Int)).length - 1) *
        (max 1 (Int.fdiv 10 ((([((0 : Int), (0 : Int), (0 : Int)), (255, 255, 255)] :
          List (Int × Int × Int)).length : Int) - 1))).toNat ∧
      1 ≤ g.length :=
  ⟨by decide, generate_gradient_length_spec _ 10 (by decide)⟩

/-- C2 counterexample: with zero key colors (fewer than 2) and 5 steps,
`generate_gradient` does not fail at all: `segments = -1`, the loop
`range(-1)` is empty, and the empty list is returned. -/
theorem generate_gradient_no_error_cex :
    generate_gradient [] 5 = Except.ok [] := rfl

/-- C2 amended: with exactly one key color `generate_gradient` fails, but
with a `ZeroDivisionError` from `steps // 0` (the source has no
`InvalidInputError`); with zero key colors it does not fail and returns the
empty list. -/
theorem generate_gradient_fewer_than_two (c : Int × Int × Int) (steps : Int) :
    generate_gradient [c] steps = Except.error PyErr.zeroDivision ∧
    generate_gradient [] steps = Except.ok [] :=
  ⟨rfl, rfl⟩

/-- C5 counterexample: `generate_gradient([(0,0,0),(255,255,255)], 10)` has
one segment with `stepsPerSegment = max(1, 10 // 1) = 10`, so it yields 10
color codes, not 9. -/
theorem generate_gradient_ten_steps_cex :
    (generate_gradient [(0, 0, 0), (255, 255, 255)] 10).map List.length =
      Except.ok 10 ∧ (10 : Nat) ≠ 9 :=
  ⟨rfl, by decide⟩

/-- C5 amended: `generate_gradient([(0,0,0),(255,255,255)], 10)` yields
exactly 10 color codes whose three (equal) channels are
0, 25, 51, 76, 102, 127, 153, 178, 204, 229: pairwise strictly ascending
from black toward white (truncation keeps the last step at 229). -/
theorem generate_gradient_ten_steps_monotone :
    generate_gradient [(0, 0, 0), (255, 255, 255)] 10 =
      Except.ok ((([0, 25, 51, 76, 102, 127, 153, 178, 204, 229] : List Int)).map
        fun v => colorCode v v v) ∧
    List.Pairwise (· < ·) ([0, 25, 51, 76, 102, 127, 153, 178, 204, 229] : List Int) :=
  ⟨rfl, by decide⟩

theorem stringJoin_cons (a : String) (l : List String) :
    String.join (a :: l) = a ++ String.join l := by
  have key : ∀ (l : List String) (x : String),
      List.foldl (fun r s => r ++ s) x l = x ++ List.foldl (fun r s => r ++ s) "" l := by
    intro l
    induction l with
    | nil => intro x; simp
    | cons b bs ih =>
      intro x
      simp only [List.foldl_cons]
      rw [ih (x ++ b), ih ("" ++ b), String.empty_append, String.append_assoc]
  simp only [String.join, List.foldl_cons]
  rw [key l ("" ++ a), String.empty_append]

theorem colorAt_ok {gradient : List String} (hg : gradient ≠ []) (k : Nat) :
    colorAt gradient k = Except.ok (gradColor gradient k) := by
  unfold colorAt
  rw [if_neg]
  simpa [List.length_eq_zero] using hg

theorem applyGradAux_eq {gradient : List String} (hg : gradient ≠ []) :
    ∀ (l : List Char) (n : Nat),
      applyGradAux gradient n l =
        Except.ok (String.join ((List.range l.length).map fun i =>
          gradColor gradient (i + n) ++ String.singleton (l.getD i ' '))) := by
  intro l
  induction l with
  | nil => intro n; rfl
  | cons c cs ih =>
    intro n
    simp only [applyGradAux, colorAt_ok hg, ih (n + 1)]
    simp only [List.length_cons, List.range_succ_eq_map, List.map_cons, List.map_map]
    rw [stringJoin_cons]
    have harg : (List.range cs.length).map
        ((fun i => gradColor gradient (i + n) ++
          String.singleton ((c :: cs).getD i ' ')) ∘ Nat.succ) =
        (List.range cs.length).map
        (fun i => gradColor gradient (i + (n + 1)) ++ String.singleton (cs.getD i ' ')) := by
      refine List.map_congr_left fun i _ => ?_
      simp only [Function.comp_apply, List.getD_cons_succ]
      have hadd : Nat.succ i + n = i + (n + 1) := by omega
      rw [hadd]
    rw [harg]
    simp only [List.getD_cons_zero, Nat.zero_add]

/-- C3: for a fixed non-empty gradient, two character positions on the same
diagonal modulo the gradient length receive the identical color code, and
`apply_gradient` renders each character at position `i` of the line with
line index `n` as exactly `gradient[(i + n) mod len(gradient)]` followed by
that character, concatenated in order. -/
theorem apply_gradient_diagonal (gradient : List String) (text : String)
    (n i1 n1 i2 n2 : Nat) (hg : gradient ≠ [])
    (hmod : (i1 + n1) % gradient.length = (i2 + n2) % gradient.length) :
    gradColor gradient (i1 + n1) = gradColor gradient (i2 + n2) ∧
    apply_gradient text gradient n =
      Except.ok (String.join ((List.range text.length).map fun i =>
        gradColor gradient (i + n) ++ String.singleton (text.data.getD i ' '))) := by
  constructor
  · unfold gradColor
    rw [hmod]
  · exact applyGradAux_eq hg text.data n

/-- Witness for C3: gradient of two codes, positions (0,1) and (1,2) on the
same diagonal, text "hi" with line index 0. -/
theorem apply_gradient_diagonal_witness :
    (["A", "B"] : List String) ≠ [] ∧
    (0 + 1) % (["A", "B"] : List String).length =
      (1 + 2) % (["A", "B"] : List String).length ∧
    (gradColor ["A", "B"] (0 + 1) = gradColor ["A", "B"] (1 + 2) ∧
      apply_gradient "hi" ["A", "B"] 0 =
        Except.ok (String.join ((List.range ("hi" : String).length).map fun i =>
          gradColor ["A", "B"] (i + 0) ++
            String.singleton (("hi" : String).data.getD i ' ')))) :=
  ⟨by decide, by decide,
    apply_gradient_diagonal ["A", "B"] "hi" 0 0 1 1 2 (by decide) (by decide)⟩

/-- C10: with an empty gradient, `apply_gradient` returns the empty string
on empty text (the modulo expression is never evaluated) but fails with a
`ZeroDivisionError` on every non-empty text; with any non-empty gradient it
is total. -/
theorem apply_gradient_empty_gradient_cases (n : Nat) :
    apply_gradient "" [] n = Except.ok "" ∧
    (∀ text : String, text ≠ "" → apply_gradient text [] n =
      Except.error PyErr.zeroDivision) ∧
    (∀ (text : String) (g : List String), g ≠ [] →
      ∃ colored, apply_gradient text g n = Except.ok colored) := by
  refine ⟨rfl, ?_, ?_⟩
  · intro text htext
    obtain ⟨l⟩ := text
    cases l with
    | nil => exact absurd rfl htext
    | cons c cs => rfl
  · intro text g hgne
    exact ⟨_, applyGradAux_eq hgne text.data n⟩

/-- Witness for C10 at line index 0, text "a" and gradient ["X"]. -/
theorem apply_gradient_empty_gradient_cases_witness :
    apply_gradient "" [] 0 = Except.ok "" ∧
    ("a" : String) ≠ "" ∧
    apply_gradient "a" [] 0 = Except.error PyErr.zeroDivision ∧
    ∃ colored, apply_gradient "a" ["X"] 0 = Except.ok colored :=
  ⟨(apply_gradient_empty_gradient_cases 0).1, by decide,
    (apply_gradient_empty_gradient_cases 0).2.1 "a" (by decide),
    (apply_gradient_empty_gradient_cases 0).2.2 "a" ["X"] (by decide)⟩

theorem digit_isParamByte : ∀ d : Nat, d < 10 →
    isParamByte (Char.ofNat (48 + d)) = true := by decide

theorem natDigitsCore_param : ∀ (fuel n : Nat), ∀ c ∈ natDigitsCore fuel n,
    isParamByte c = true := by
  intro fuel
  induction fuel with
  | zero => intro n c hc; simp [natDigitsCore] at hc
  | succ f ih =>
    intro n c hc
    cases n with
    | zero => simp [natDigitsCore] at hc
    | succ m =>
      simp only [natDigitsCore, List.mem_append, List.mem_singleton] at hc
      rcases hc with hc | hc
      · exact ih _ c hc
      · subst hc
        exact digit_isParamByte ((m + 1) % 10) (Nat.mod_lt _ (by omega))

theorem natDigits_param (n : Nat) : ∀ c ∈ natDigits n, isParamByte c = true := by
  intro c hc
  unfold natDigits at hc
  split at hc
  · simp only [List.mem_singleton] at hc
    subst hc
    decide
  · exact natDigitsCore_param _ _ c hc

theorem intRepr_param {i : Int} (hi : 0 ≤ i) : ∀ c ∈ intRepr i,
    isParamByte c = true := by
  intro c hc
  unfold intRepr at hc
  rw [if_neg (by omega)] at hc
  exact natDigits_param _ c hc

theorem codeParams_param {r g b : Int} (hr : 0 ≤ r) (hgg : 0 ≤ g) (hb : 0 ≤ b) :
    ∀ c ∈ codeParams r g b, isParamByte c = true := by
  unfold codeParams
  refine List.forall_mem_append.mpr ⟨?_, ?_⟩
  · refine List.forall_mem_append.mpr ⟨?_, ?_⟩
    · exact List.forall_mem_append.mpr ⟨by decide, intRepr_param hr⟩
    · intro c hc
      rcases List.mem_cons.mp hc with h | h
      · subst h; decide
      · exact intRepr_param hgg c h
  · intro c hc
    rcases List.mem_cons.mp hc with h | h
    · subst h; decide
    · exact intRepr_param hb c h

theorem colorCode_data_eq (r g b : Int) :
    (colorCode r g b).data = '\x1B' :: '[' :: (codeParams r g b ++ ['m']) := by
  simp [colorCode, codeParams, List.append_assoc]

theorem matchAnsi_colorCode {r g b : Int} (hr : 0 ≤ r) (hgg : 0 ≤ g) (hb : 0 ≤ b)
    (t : List Char) :
    matchAnsi ((colorCode r g b).data ++ t) = some t := by
  rw [colorCode_data_eq]
  simp only [List.cons_append, List.append_assoc, List.singleton_append,
    List.nil_append]
  simp only [matchAnsi]
  rw [if_pos (by decide)]
  rw [List.dropWhile_append_of_pos (codeParams_param hr hgg hb)]
  rw [List.dropWhile_cons_of_neg (by decide), List.dropWhile_cons_of_neg (by decide)]
  show (if isFinalByte 'm' = true then some t else none) = some t
  rw [if_pos (by decide)]

theorem stripChars_colorCode_cons {r g b : Int} (hr : 0 ≤ r) (hgg : 0 ≤ g)
    (hb : 0 ≤ b) (t : List Char) :
    stripChars ((colorCode r g b).data ++ t) = stripChars t := by
  have hm := matchAnsi_colorCode hr hgg hb t
  rw [colorCode_data_eq] at hm ⊢
  simp only [List.cons_append] at hm ⊢
  exact stripChars_cons_match hm

theorem gradColor_mem {g : List String} (hg : g ≠ []) (k : Nat) :
    gradColor g k ∈ g := by
  unfold gradColor
  have hlen : 0 < g.length := List.length_pos.mpr hg
  have hmod : k % g.length < g.length := Nat.mod_lt _ hlen
  rw [List.getD_eq_getElem _ _ hmod]
  exact List.getElem_mem hmod

theorem getD_chan_nonneg {colors : List (Int × Int × Int)}
    (hcolors : ∀ t ∈ colors, 0 ≤ t.1 ∧ 0 ≤ t.2.1 ∧ 0 ≤ t.2.2) (i : Nat) :
    0 ≤ (colors.getD i (0, 0, 0)).1 ∧ 0 ≤ (colors.getD i (0, 0, 0)).2.1 ∧
      0 ≤ (colors.getD i (0, 0, 0)).2.2 := by
  by_cases hi : i < colors.length
  · rw [List.getD_eq_getElem _ _ hi]
    exact hcolors _ (List.getElem_mem hi)
  · rw [List.getD_eq_default _ _ (le_of_not_lt hi)]
    exact ⟨le_refl 0, le_refl 0, le_refl 0⟩

theorem lerpChannel_nonneg {a b : Int} (ha : 0 ≤ a) (hb : 0 ≤ b) {j sps : Nat}
    (hj : j ≤ sps) : 0 ≤ lerpChannel a b j sps := by
  unfold lerpChannel
  refine Int.tdiv_nonneg ?_ (by positivity)
  have hji : (j : Int) ≤ (sps : Int) := by exact_mod_cast hj
  have h1 : (0 : Int) ≤ (sps : Int) - (j : Int) := by omega
  have h2 : (0 : Int) ≤ (j : Int) := by positivity
  exact add_nonneg (mul_nonneg ha h1) (mul_nonneg hb h2)

theorem generate_gradient_mem {colors : List (Int × Int × Int)} {steps : Int}
    {g : List String} (hok : generate_gradient colors steps = Except.ok g)
    (hcolors : ∀ t ∈ colors, 0 ≤ t.1 ∧ 0 ≤ t.2.1 ∧ 0 ≤ t.2.2) :
    ∀ s ∈ g, ∃ r gr b : Int, 0 ≤ r ∧ 0 ≤ gr ∧ 0 ≤ b ∧ s = colorCode r gr b := by
  intro s hs
  simp only [generate_gradient] at hok
  by_cases hseg : ((colors.length : Int) - 1) = 0
  · rw [if_pos hseg] at hok
    cases hok
  · rw [if_neg hseg] at hok
    have hg : g = (List.range ((colors.length : Int) - 1).toNat).flatMap fun i =>
        (List.range (max 1 (Int.fdiv steps ((colors.length : Int) - 1))).toNat).map fun j =>
          colorCode
            (lerpChannel (colors.getD i (0, 0, 0)).1 (colors.getD (i + 1) (0, 0, 0)).1 j
              (max 1 (Int.fdiv steps ((colors.length : Int) - 1))).toNat)
            (lerpChannel (colors.getD i (0, 0, 0)).2.1 (colors.getD (i + 1) (0, 0, 0)).2.1 j
              (max 1 (Int.fdiv steps ((colors.length : Int) - 1))).toNat)
            (lerpChannel (colors.getD i (0, 0, 0)).2.2 (colors.getD (i + 1) (0, 0, 0)).2.2 j
              (max 1 (Int.fdiv steps ((colors.length : Int) - 1))).toNat) := by
      cases hok
      rfl
  
    subst hg
    simp only [List.mem_flatMap, List.mem_map, List.mem_range] at hs
    obtain ⟨i, _, j, hj, rfl⟩ := hs
    have hs1 := getD_chan_nonneg hcolors i
    have hs2 := getD_chan_nonneg hcolors (i + 1)
    have hjle : j ≤ (max 1 (Int.fdiv steps ((colors.length : Int) - 1))).toNat :=
      le_of_lt hj
    exact ⟨_, _, _, lerpChannel_nonneg hs1.1 hs2.1 hjle,
      lerpChannel_nonneg hs1.2.1 hs2.2.1 hjle,
      lerpChannel_nonneg hs1.2.2 hs2.2.2 hjle, rfl⟩

theorem stripChars_applyGradAux {g : List String} (hg : g ≠ [])
    (hcodes : ∀ s ∈ g, ∃ r gr b : Int, 0 ≤ r ∧ 0 ≤ gr ∧ 0 ≤ b ∧ s = colorCode r gr b) :
    ∀ (l : List Char) (n : Nat), (∀ c ∈ l, isIntroducer c = false) →
      ∃ out, applyGradAux g n l = Except.ok out ∧ stripChars out.data = l := by
  intro l
  induction l with
  | nil => intro n _; exact ⟨"", rfl, rfl⟩
  | cons c cs ih =>
    intro n hl
    obtain ⟨out, hout, hstrip⟩ := ih (n + 1) fun x hx => hl x (List.mem_cons_of_mem c hx)
    obtain ⟨r, gr, b, hr, hgr, hb, hcode⟩ := hcodes _ (gradColor_mem hg n)
    refine ⟨gradColor g n ++ String.singleton c ++ out, ?_, ?_⟩
    · simp only [applyGradAux, colorAt_ok hg, hout]
    · have hdata : (gradColor g n ++ String.singleton c ++ out).data =
          (gradColor g n).data ++ (c :: out.data) := by
        simp [String.data_append]
      rw [hdata, hcode, stripChars_colorCode_cons hr hgr hb,
        stripChars_cons_nomatch (matchAnsi_cons_none _ (hl c (List.mem_cons_self c cs))),
        hstrip]

/-- C9: for any gradient successfully produced by `generate_gradient` from
key colors with channels in the valid non-negative range, a non-empty
gradient, and any text without the escape character 0x1B, stripping the
colored line recovers the original text exactly: every emitted color code is
a complete escape sequence that `strip_ansi` removes, and the plain
characters are kept in order. -/
theorem apply_gradient_strip_roundtrip (colors : List (Int × Int × Int)) (steps : Int)
    (g : List String) (text : String) (n : Nat)
    (hcolors : ∀ t ∈ colors, 0 ≤ t.1 ∧ 0 ≤ t.2.1 ∧ 0 ≤ t.2.2)
    (hgen : generate_gradient colors steps = Except.ok g) (hne : g ≠ [])
    (hesc : ∀ c ∈ text.data, isIntroducer c = false) :
    ∃ colored, apply_gradient text g n = Except.ok colored ∧
      strip_ansi colored = text := by
  obtain ⟨out, hout, hstrip⟩ :=
    stripChars_applyGradAux hne (generate_gradient_mem hgen hcolors) text.data n hesc
  refine ⟨out, hout, ?_⟩
  unfold strip_ansi
  rw [hstrip]

/-- Witness for C9: the two-step black-to-gray gradient applied to "ab". -/
theorem apply_gradient_strip_roundtrip_witness :
    (∀ t ∈ ([(0, 0, 0), (255, 255, 255)] : List (Int × Int × Int)),
      0 ≤ t.1 ∧ 0 ≤ t.2.1 ∧ 0 ≤ t.2.2) ∧
    generate_gradient [(0, 0, 0), (255, 255, 255)] 2 =
      Except.ok ["\x1B[38;2;0;0;0m", "\x1B[38;2;127;127;127m"] ∧
    (∀ c ∈ ("ab" : String).data, isIntroducer c = false) ∧
    ∃ colored,
      apply_gradient "ab" ["\x1B[38;2;0;0;0m", "\x1B[38;2;127;127;127m"] 0 =
        Except.ok colored ∧ strip_ansi colored = "ab" :=
  ⟨by decide, rfl, by decide,
    apply_gradient_strip_roundtrip [(0, 0, 0), (255, 255, 255)] 2
      ["\x1B[38;2;0;0;0m", "\x1B[38;2;127;127;127m"] "ab" 0
      (by decide) rfl (by decide) (by decide)⟩

/-- C6 counterexample: stripping can create a new escape sequence.  In
"\x1B\x1B[A[0m" the first pass removes only "\x1B[A", leaving "\x1B[0m",
which the second pass removes entirely, so stripping twice differs from
stripping once. -/
theorem strip_ansi_not_idempotent_cex :
    strip_ansi (strip_ansi "\x1B\x1B[A[0m") ≠ strip_ansi "\x1B\x1B[A[0m" := by
  decide

/-- C6 amended: escape stripping is idempotent on every string whose
stripped form no longer contains the escape character 0x1B; when a residual
0x1B recombines with later text into a new escape sequence (as in the
counterexample), a second strip can remove more. -/
theorem strip_ansi_idempotent_no_esc (s : String)
    (h : ∀ c ∈ (strip_ansi s).data, isIntroducer c = false) :
    strip_ansi (strip_ansi s) = strip_ansi s := by
  unfold strip_ansi at h ⊢
  simp only at h ⊢
  rw [stripChars_of_no_introducer h]

/-- Witness for C6: "a\x1B[0mb" strips to "ab", which has no escapes, so a
second strip is the identity. -/
theorem strip_ansi_idempotent_no_esc_witness :
    (∀ c ∈ (strip_ansi "a\x1B[0mb").data, isIntroducer c = false) ∧
    strip_ansi (strip_ansi "a\x1B[0mb") = strip_ansi "a\x1B[0mb" :=
  ⟨by decide, strip_ansi_idempotent_no_esc "a\x1B[0mb" (by decide)⟩

theorem dropWhile_replicate_pos {p : Char → Bool} {a : Char} (h : p a = true)
    (k : Nat) : (List.replicate k a).dropWhile p = [] := by
  induction k with
  | zero => rfl
  | succ k ih => simp [List.replicate_succ, List.dropWhile_cons, h, ih]

theorem dropWhile_replicate_neg {p : Char → Bool} {a : Char} (h : p a = false)
    (k : Nat) : (List.replicate k a).dropWhile p = List.replicate k a := by
  cases k with
  | zero => rfl
  | succ k => simp [List.replicate_succ, List.dropWhile_cons, h]

theorem dropWhile_append_of_ne_nil {p : Char → Bool} {l : List Char}
    (t : List Char) (h : l.dropWhile p ≠ []) :
    (l ++ t).dropWhile p = l.dropWhile p ++ t := by
  induction l with
  | nil => exact absurd rfl h
  | cons a l ih =>
    by_cases hp : p a = true
    · rw [List.dropWhile_cons_of_pos hp] at h
      rw [List.cons_append, List.dropWhile_cons_of_pos hp, List.dropWhile_cons_of_pos hp]
      exact ih h
    · have hp' : ¬p a = true := hp
      rw [List.cons_append, List.dropWhile_cons_of_neg hp', List.dropWhile_cons_of_neg hp',
        List.cons_append]

theorem dropWhile_append_of_nil {p : Char → Bool} {l : List Char}
    (t : List Char) (h : l.dropWhile p = []) :
    (l ++ t).dropWhile p = t.dropWhile p := by
  induction l with
  | nil => rfl
  | cons a l ih =>
    by_cases hp : p a = true
    · rw [List.dropWhile_cons_of_pos hp] at h
      rw [List.cons_append, List.dropWhile_cons_of_pos hp]
      exact ih h
    · rw [List.dropWhile_cons_of_neg hp] at h
      cases h

theorem matchAnsi_some_append {l rem : List Char} (t : List Char)
    (h : matchAnsi l = some rem) : matchAnsi (l ++ t) = some (rem ++ t) := by
  match l with
  | [] => simp [matchAnsi] at h
  | [c] => simp [matchAnsi] at h
  | c :: d :: rest =>
    simp only [matchAnsi] at h
    simp only [List.cons_append, matchAnsi]
    by_cases hcd : (isIntroducer c && isFe d) = true
    · rw [if_pos hcd] at h ⊢
      cases hd : (rest.dropWhile isParamByte).dropWhile isIntermediateByte with
      | nil => rw [hd] at h; cases h
      | cons e rest3 =>
        rw [hd] at h
        cases hf : isFinalByte e with
        | false => simp [hf] at h
        | true =>
          simp only [hf, if_true, eq_self_iff_true, Option.some.injEq] at h
          subst h
          have h1 : rest.dropWhile isParamByte ≠ [] := by
            intro hnil
            rw [hnil] at hd
            cases hd
          rw [dropWhile_append_of_ne_nil t h1]
          have h2 : (rest.dropWhile isParamByte).dropWhile isIntermediateByte ≠ [] := by
            rw [hd]
            exact List.cons_ne_nil _ _
          rw [dropWhile_append_of_ne_nil t h2, hd, List.cons_append]
          show (if isFinalByte e = true then some (rest3 ++ t) else none) = some (rest3 ++ t)
          rw [if_pos hf]
    · rw [if_neg hcd] at h
      cases h

theorem matchAnsi_none_append_spaces {l : List Char} (k : Nat)
    (h : matchAnsi l = none) :
    matchAnsi (l ++ List.replicate k ' ') = none := by
  match l with
  | [] =>
    rw [List.nil_append]
    cases k with
    | zero => rfl
    | succ k' =>
      rw [List.replicate_succ]
      exact matchAnsi_cons_none _ (by decide)
  | [c] =>
    cases k with
    | zero => simpa using h
    | succ k' =>
      rw [List.replicate_succ, List.singleton_append]
      have hfe : (isIntroducer c && isFe ' ') = false := by
        simp [isFe]
      simp [matchAnsi, hfe]
  | c :: d :: rest =>
    simp only [matchAnsi] at h
    simp only [List.cons_append, matchAnsi]
    by_cases hcd : (isIntroducer c && isFe d) = true
    · rw [if_pos hcd] at h ⊢
      cases h1 : rest.dropWhile isParamByte with
      | nil =>
        rw [dropWhile_append_of_nil _ h1, dropWhile_replicate_neg (by decide),
          dropWhile_replicate_pos (by decide)]
      | cons x xs =>
        have hne1 : rest.dropWhile isParamByte ≠ [] := by
          rw [h1]
          exact List.cons_ne_nil _ _
        rw [dropWhile_append_of_ne_nil _ hne1, h1]
        cases h2 : (x :: xs).dropWhile isIntermediateByte with
        | nil =>
          rw [dropWhile_append_of_nil _ h2, dropWhile_replicate_pos (by decide)]
        | cons e r3 =>
          have hne2 : (x :: xs).dropWhile isIntermediateByte ≠ [] := by
            rw [h2]
            exact List.cons_ne_nil _ _
          rw [dropWhile_append_of_ne_nil _ hne2, h2]
          rw [h1, h2] at h
          cases hf : isFinalByte e with
          | true => simp [hf] at h
          | false =>
            rw [List.cons_append]
            show (if isFinalByte e = true then some (r3 ++ List.replicate k ' ')
              else none) = none
            rw [if_neg (by simp [hf])]
    · rw [if_neg hcd]

theorem stripChars_replicate_space (k : Nat) :
    stripChars (List.replicate k ' ') = List.replicate k ' ' :=
  stripChars_of_no_introducer fun c hc => by
    rw [List.eq_of_mem_replicate hc]
    decide

theorem stripChars_spaces_prefix (k : Nat) (l : List Char) :
    stripChars (List.replicate k ' ' ++ l) = List.replicate k ' ' ++ stripChars l := by
  induction k with
  | zero => simp
  | succ k ih =>
    rw [List.replicate_succ, List.cons_append,
      stripChars_cons_nomatch (matchAnsi_cons_none _ (by decide)), ih]
    simp [List.replicate_succ]

theorem stripChars_append_spaces_aux (k : Nat) : ∀ (n : Nat) (l : List Char),
    l.length ≤ n →
    stripChars (l ++ List.replicate k ' ') = stripChars l ++ List.replicate k ' ' := by
  intro n
  induction n with
  | zero =>
    intro l hl
    have hnil : l = [] := by
      cases l with
      | nil => rfl
      | cons a b => simp at hl
    subst hnil
    rw [List.nil_append, stripChars_nil, List.nil_append, stripChars_replicate_space]
  | succ n ih =>
    intro l hl
    cases l with
    | nil =>
      rw [List.nil_append, stripChars_nil, List.nil_append, stripChars_replicate_space]
    | cons c rest =>
      cases hm : matchAnsi (c :: rest) with
      | some rem =>
        have hlen := matchAnsi_some_length hm
        have hm' := matchAnsi_some_append (List.replicate k ' ') hm
        rw [List.cons_append] at hm'
        rw [List.cons_append, stripChars_cons_match hm', stripChars_cons_match hm]
        have : rem.length ≤ n := by
          simp only [List.length_cons] at hlen hl
          omega
        exact ih rem this
      | none =>
        have hm' := matchAnsi_none_append_spaces k hm
        rw [List.cons_append] at hm'
        rw [List.cons_append, stripChars_cons_nomatch hm', stripChars_cons_nomatch hm]
        have : rest.length ≤ n := by
          simp only [List.length_cons] at hl
          omega
        rw [ih rest this, List.cons_append]

theorem stripChars_append_spaces (k : Nat) (l : List Char) :
    stripChars (l ++ List.replicate k ' ') = stripChars l ++ List.replicate k ' ' :=
  stripChars_append_spaces_aux k l.length l le_rfl

theorem widthSum_replicate_space (k : Nat) :
    ((List.replicate k ' ').map charWidth).sum = k := by
  induction k with
  | zero => rfl
  | succ k ih =>
    rw [List.replicate_succ, List.map_cons, List.sum_cons, ih]
    have hsp : charWidth ' ' = 1 := rfl
    rw [hsp]
    omega

theorem visibleWidth_pad (s : String) (L R : Nat) :
    visibleWidth (mkSpaces L ++ s ++ mkSpaces R) = L + visibleWidth s + R := by
  have hdata : (mkSpaces L ++ s ++ mkSpaces R).data =
      List.replicate L ' ' ++ (s.data ++ List.replicate R ' ') := by
    simp [String.data_append, mkSpaces, List.append_assoc]
  unfold visibleWidth
  rw [hdata, stripChars_spaces_prefix, stripChars_append_spaces]
  rw [List.map_append, List.map_append, List.sum_append, List.sum_append,
    widthSum_replicate_space, widthSum_replicate_space]
  omega

theorem fdiv_two_le {a : Int} (h : 0 ≤ a) : Int.fdiv a 2 ≤ a := by
  obtain ⟨m, rfl⟩ := Int.eq_ofNat_of_zero_le h
  have hm : ((m : Int)).fdiv 2 = ((m / 2 : Nat) : Int) := by
    cases m with
    | zero => rfl
    | succ m' => rfl
  rw [hm]
  exact_mod_cast Nat.div_le_self m 2

theorem fdiv_two_neg {a : Int} (h : a < 0) : Int.fdiv a 2 < 0 := by
  match a with
  | Int.ofNat m => exact absurd h (by simp [Int.ofNat_nonneg])
  | Int.negSucc m =>
    have : Int.fdiv (Int.negSucc m) 2 = Int.negSucc (m / 2) := rfl
    rw [this]
    exact Int.negSucc_lt_zero _

/-- C4: when the visible width `v` of the text fits in `width`, `center_text`
returns left padding of `max((width - v) // 2, 0)` spaces (floor division),
then the text unchanged, then `width - leftPadding - v` spaces, and the
visible width of the result is exactly `width`. -/
theorem center_text_pads_to_width (s : String) (w : Int)
    (h : (visibleWidth s : Int) ≤ w) :
    center_text s w =
      mkSpaces (max (Int.fdiv (w - (visibleWidth s : Int)) 2) 0).toNat ++ s ++
        mkSpaces (w - max (Int.fdiv (w - (visibleWidth s : Int)) 2) 0 -
          (visibleWidth s : Int)).toNat ∧
    (visibleWidth (center_text s w) : Int) = w := by
  refine ⟨rfl, ?_⟩
  have hcenter : center_text s w =
      mkSpaces (max (Int.fdiv (w - (visibleWidth s : Int)) 2) 0).toNat ++ s ++
        mkSpaces (w - max (Int.fdiv (w - (visibleWidth s : Int)) 2) 0 -
          (visibleWidth s : Int)).toNat := rfl
  rw [hcenter, visibleWidth_pad]
  have hvnn : (0 : Int) ≤ (visibleWidth s : Int) := Int.ofNat_nonneg _
  have hL : (0 : Int) ≤ max (Int.fdiv (w - (visibleWidth s : Int)) 2) 0 :=
    le_max_right _ _
  have hfd : Int.fdiv (w - (visibleWidth s : Int)) 2 ≤ w - (visibleWidth s : Int) :=
    fdiv_two_le (by omega)
  have hmaxle : max (Int.fdiv (w - (visibleWidth s : Int)) 2) 0 ≤
      w - (visibleWidth s : Int) := max_le hfd (by omega)
  push_cast
  rw [Int.toNat_of_nonneg hL, Int.toNat_of_nonneg (by omega)]
  omega

/-- Witness for C4 at text "hi" (width 2) centered in width 6. -/
theorem center_text_pads_to_width_witness :
    (visibleWidth "hi" : Int) ≤ 6 ∧
    (center_text "hi" 6 =
      mkSpaces (max (Int.fdiv (6 - (visibleWidth "hi" : Int)) 2) 0).toNat ++ "hi" ++
        mkSpaces (6 - max (Int.fdiv (6 - (visibleWidth "hi" : Int)) 2) 0 -
          (visibleWidth "hi" : Int)).toNat ∧
      (visibleWidth (center_text "hi" 6) : Int) = 6) :=
  ⟨by decide, center_text_pads_to_width "hi" 6 (by decide)⟩

/-- C7: when the text is visibly wider than the target width, `center_text`
never fails: the left padding is 0, the right padding is clamped to 0, and
the text is returned unchanged, overflowing the nominal width without
truncation. -/
theorem center_text_overflow (s : String) (w : Int)
    (h : w < (visibleWidth s : Int)) :
    center_text s w = s ∧
    (max (Int.fdiv (w - (visibleWidth s : Int)) 2) 0).toNat = 0 ∧
    (w - max (Int.fdiv (w - (visibleWidth s : Int)) 2) 0 -
      (visibleWidth s : Int)).toNat = 0 := by
  have hneg : w - (visibleWidth s : Int) < 0 := by omega
  have hfd := fdiv_two_neg hneg
  have hmax : max (Int.fdiv (w - (visibleWidth s : Int)) 2) 0 = 0 :=
    max_eq_right (le_of_lt hfd)
  have hr : (w - max (Int.fdiv (w - (visibleWidth s : Int)) 2) 0 -
      (visibleWidth s : Int)).toNat = 0 := by
    rw [hmax]
    exact Int.toNat_of_nonpos (by omega)
  refine ⟨?_, by rw [hmax]; rfl, hr⟩
  have hcenter : center_text s w =
      mkSpaces (max (Int.fdiv (w - (visibleWidth s : Int)) 2) 0).toNat ++ s ++
        mkSpaces (w - max (Int.fdiv (w - (visibleWidth s : Int)) 2) 0 -
          (visibleWidth s : Int)).toNat := rfl
  rw [hcenter, hr, hmax]
  show mkSpaces 0 ++ s ++ mkSpaces 0 = s
  rw [show mkSpaces 0 = "" from rfl, String.empty_append, String.append_empty]

/-- Witness for C7 at text "hello" (width 5) and width 3. -/
theorem center_text_overflow_witness :
    (3 : Int) < (visibleWidth "hello" : Int) ∧
    (center_text "hello" 3 = "hello" ∧
      (max (Int.fdiv (3 - (visibleWidth "hello" : Int)) 2) 0).toNat = 0 ∧
      (3 - max (Int.fdiv (3 - (visibleWidth "hello" : Int)) 2) 0 -
        (visibleWidth "hello" : Int)).toNat = 0) :=
  ⟨by decide, center_text_overflow "hello" 3 (by decide)⟩

/-- C8: the visible-width measurement used by `center_text` is total and
sensible on every string: the total is a sum of per-code-point widths and is
never negative, and any code point outside the recognized zero-width and
wide ranges, including malformed or unknown ones, contributes the fallback
width 1. -/
theorem visibleWidth_total_fallback (s : String) :
    0 ≤ (visibleWidth s : Int) ∧
    ∀ c : Char, isZeroWidth c = false → isWideChar c = false → charWidth c = 1 := by
  refine ⟨Int.ofNat_nonneg _, ?_⟩
  intro c h0 h2
  simp [charWidth, h0, h2]

/-- Witness for C8 at the control character 0x07 (unrecognized, width 1). -/
theorem visibleWidth_total_fallback_witness :
    isZeroWidth (Char.ofNat 0x07) = false ∧ isWideChar (Char.ofNat 0x07) = false ∧
    0 ≤ (visibleWidth (String.singleton (Char.ofNat 0x07)) : Int) ∧
    charWidth (Char.ofNat 0x07) = 1 :=
  ⟨by decide, by decide,
    (visibleWidth_total_fallback (String.singleton (Char.ofNat 0x07))).1,
    (visibleWidth_total_fallback (String.singleton (Char.ofNat 0x07))).2
      (Char.ofNat 0x07) (by decide) (by decide)⟩
